import Mathlib

/-!
# Verification of the steganography pipeline in imag.py

Shallow embedding conventions:
* a bit is a `Bool` (`false` = the character 0, `true` = the character 1);
  Python binary strings become `List Bool`;
* a text is the list of its characters' code points (`List Nat`);
* the pixel grid is the row-major flattening of the image into a `List Pixel`
  (the loop `for y: for x:` and numpy's `flatten` both walk this order);
* operations that print an error message and return early, or that would raise,
  return `Except PyErr` / `Option` values.
-/

/-- A pixel: the three 8-bit channel values (red, green, blue) of the RGB grid. -/
structure Pixel where
  r : Nat
  g : Nat
  b : Nat
  deriving DecidableEq

/-- The failure modes of `embed` / `extract` (imag.py prints a message and returns,
or would raise an uncaught `IndexError` inside `lfsr`). -/
inductive PyErr where
  | shortSeed
  | capacity
  | headerTruncated
  | delimiterNotFound
  | indexError
  deriving DecidableEq

/-- Big-endian value of a bit string: Python `int(s, 2)`. -/
def binToNat (l : List Bool) : Nat :=
  l.foldl (fun acc b => 2 * acc + cond b 1 0) 0

/-- Minimal binary digits of `n`, most significant first, driven by fuel
(the fuel `n` itself always suffices since the value at least halves each step). -/
def natBitsAux : Nat → Nat → List Bool
  | 0, _ => []
  | _ + 1, 0 => []
  | fuel + 1, n + 1 => natBitsAux fuel ((n + 1) / 2) ++ [decide ((n + 1) % 2 = 1)]

/-- Python `format(n, 'b')`: minimal binary representation, `"0"` for `n = 0`. -/
def natBits (n : Nat) : List Bool :=
  if n = 0 then [false] else natBitsAux n n

/-- Zero-pad a bit string on the left to width `w` (no-op if already `w` long or longer). -/
def padLeft (w : Nat) (l : List Bool) : List Bool :=
  List.replicate (w - l.length) false ++ l

/-- Python `format(n, '0wb')`: binary of `n`, left-padded with zeros to at least `w`
digits; note it is longer than `w` digits when `n ≥ 2 ^ w`. -/
def pyFormatB (w n : Nat) : List Bool :=
  padLeft w (natBits n)

/-- imag.py `text_to_binary`: concatenation of `format(ord(char), '08b')` over the text. -/
def text_to_binary : List Nat → List Bool
  | [] => []
  | c :: rest => pyFormatB 8 c ++ text_to_binary rest

/-- imag.py `binary_to_text`: split into consecutive 8-bit chunks (the final chunk may
be shorter) and map each chunk to the character whose code point is its value. -/
def binary_to_text : List Bool → List Nat
  | [] => []
  | b1 :: b2 :: b3 :: b4 :: b5 :: b6 :: b7 :: b8 :: rest =>
      binToNat [b1, b2, b3, b4, b5, b6, b7, b8] :: binary_to_text rest
  | l => [binToNat l]

/-- imag.py `get_channel_distribution`.  `math.floor(n * 0.50)` and
`math.floor(n * 0.25)` equal `n / 2` and `n / 4` in integer arithmetic: 0.50 and 0.25
are exact binary floats, so the scaling is exact for every bit count the program can
build in memory. -/
def get_channel_distribution (total_len : Nat) : Nat × Nat × Nat :=
  let blue_len := total_len / 2
  let red_len := total_len / 4
  let green_len := total_len - blue_len - red_len
  (blue_len, red_len, green_len)

/-- Python list indexing `register[i]`: a negative index counts from the end; an index
out of range (after that wrap) raises `IndexError`, modelled as `none`. -/
def pyGet (l : List Bool) (i : Int) : Option Bool :=
  let j : Int := if i < 0 then i + l.length else i
  if 0 ≤ j ∧ j < (l.length : Int) then some (l.getD j.toNat false) else none

/-- The feedback loop of imag.py `lfsr`: `feedback_bit = 0`, then
`feedback_bit ^= int(register[i])` over the tap indices in order; an out-of-range
index raises (`none`). -/
def pyFoldXor (reg : List Bool) : Bool → List Int → Option Bool
  | acc, [] => some acc
  | acc, i :: rest =>
    match pyGet reg i with
    | none => none
    | some b => pyFoldXor reg (Bool.xor acc b) rest

/-- The loop of imag.py `lfsr`: per output bit emit `register[-1]`, xor the tapped
bits, and shift right by one inserting the feedback bit at the front. -/
def lfsrAux (tapIdx : List Int) : List Bool → Nat → Option (List Bool)
  | _, 0 => some []
  | reg, n + 1 =>
    match pyGet reg (-1) with
    | none => none
    | some out =>
      match pyFoldXor reg false tapIdx with
      | none => none
      | some fb =>
        match lfsrAux tapIdx (fb :: reg.dropLast) n with
        | none => none
        | some rest => some (out :: rest)

/-- imag.py `lfsr`: `tap_indices = [len(register) - t for t in taps]`, then the loop. -/
def lfsr (seed : List Bool) (taps : List Nat) (len : Nat) : Option (List Bool) :=
  lfsrAux (taps.map (fun t => (seed.length : Int) - t)) seed len

/-- The four symbols of imag.py's `DNA_MAP`. -/
inductive DnaBase where
  | A
  | C
  | G
  | T
  deriving DecidableEq

/-- `DNA_MAP`: `00 -> A`, `01 -> C`, `10 -> G`, `11 -> T`. -/
def dnaMap : Bool → Bool → DnaBase
  | false, false => DnaBase.A
  | false, true => DnaBase.C
  | true, false => DnaBase.G
  | true, true => DnaBase.T

/-- `DNA_MAP_REVERSE`: the two bits of each symbol. -/
def baseBits : DnaBase → List Bool
  | DnaBase.A => [false, false]
  | DnaBase.C => [false, true]
  | DnaBase.G => [true, false]
  | DnaBase.T => [true, true]

/-- The chunking loop of imag.py `dna_encode` over an already-padded bit string. -/
def encodePairs : List Bool → List DnaBase
  | b1 :: b2 :: rest => dnaMap b1 b2 :: encodePairs rest
  | _ => []

/-- imag.py `dna_encode`: pad an odd-length input with one `0` bit, then map each
2-bit group to its symbol. -/
def dna_encode (binary_data : List Bool) : List DnaBase :=
  encodePairs (if binary_data.length % 2 ≠ 0 then binary_data ++ [false] else binary_data)

/-- imag.py `dna_decode`: concatenate the 2-bit groups of the symbols. -/
def dna_decode : List DnaBase → List Bool
  | [] => []
  | b :: rest => baseBits b ++ dna_decode rest

/-- The delimiter string of `embed` / `extract` as code points. -/
def delimiter : List Nat := [36, 36, 69, 78, 68, 36, 36]

/-- `lfsr_taps = [1, 2]`. -/
def lfsrTaps : List Nat := [1, 2]

/-- Python `max(lfsr_taps)`. -/
def maxTap : Nat := lfsrTaps.foldl Nat.max 0

/-- `int(format(v, '08b')[:-1] + bit, 2)`: overwrite the least significant bit of `v`. -/
def setLSB (v : Nat) (bit : Bool) : Nat :=
  2 * (v / 2) + cond bit 1 0

/-- One channel step of the embedding loop: if the channel's stream has bits left,
write its next bit into the channel value's LSB and advance the cursor, otherwise
leave the value and the stream untouched. -/
def nextBit (v : Nat) (s : List Bool) : Nat × List Bool :=
  match s with
  | [] => (v, [])
  | bit :: rest => (setLSB v bit, rest)

/-- The pixel loop of imag.py `embed` (row-major): each pixel consumes the next bit of
each of the three channel streams while that stream lasts; the streams are consumed
independently. -/
def embedBits : List Pixel → List Bool → List Bool → List Bool → List Pixel
  | [], _, _, _ => []
  | p :: ps, rd, gd, bd =>
    Pixel.mk (nextBit p.r rd).1 (nextBit p.g gd).1 (nextBit p.b bd).1 ::
      embedBits ps (nextBit p.r rd).2 (nextBit p.g gd).2 (nextBit p.b bd).2

/-- imag.py `embed`, steps 2-3: append the delimiter, `text_to_binary`, the
seed-length check, the keystream, the xor, the dna encode-then-decode pass, and the
32-bit length header. -/
def embedData (secret : List Nat) (seed : List Bool) : Except PyErr (List Bool) :=
  let binary_data := text_to_binary (secret ++ delimiter)
  if seed.length < maxTap then Except.error PyErr.shortSeed
  else
    match lfsr seed lfsrTaps binary_data.length with
    | none => Except.error PyErr.indexError
    | some ks =>
      let encrypted_binary := List.zipWith Bool.xor binary_data ks
      let final_payload := dna_decode (dna_encode encrypted_binary)
      Except.ok (pyFormatB 32 final_payload.length ++ final_payload)

/-- imag.py `embed`, steps 4-5: split the framed payload across the channels per
`get_channel_distribution`, check the per-channel capacity against the pixel count,
and write the blue / red / green slices into the pixels' LSBs.  The model is pure:
an error result means the carrier grid is returned to the caller unchanged. -/
def embed (grid : List Pixel) (secret : List Nat) (seed : List Bool) :
    Except PyErr (List Pixel) :=
  match embedData secret seed with
  | Except.error e => Except.error e
  | Except.ok d =>
    let bl := (get_channel_distribution d.length).1
    let rl := (get_channel_distribution d.length).2.1
    let gl := (get_channel_distribution d.length).2.2
    if bl > grid.length ∨ rl > grid.length ∨ gl > grid.length then
      Except.error PyErr.capacity
    else Except.ok (embedBits grid ((d.drop bl).take rl) (d.drop (bl + rl)) (d.take bl))

/-- The red-channel LSB stream of `extract`: `format(val, '08b')[-1]` over the
flattened channel, i.e. the parity of each value. -/
def redLSBs (grid : List Pixel) : List Bool := grid.map (fun p => decide (p.r % 2 = 1))

/-- The green-channel LSB stream of `extract`. -/
def greenLSBs (grid : List Pixel) : List Bool := grid.map (fun p => decide (p.g % 2 = 1))

/-- The blue-channel LSB stream of `extract`. -/
def blueLSBs (grid : List Pixel) : List Bool := grid.map (fun p => decide (p.b % 2 = 1))

/-- imag.py `extract`, step 2: the 32 header bits, read as the first
`get_channel_distribution 32` bits of the blue, red and green LSB streams. -/
def headerRead (grid : List Pixel) : List Bool :=
  (blueLSBs grid).take (get_channel_distribution 32).1 ++
    (redLSBs grid).take (get_channel_distribution 32).2.1 ++
      (greenLSBs grid).take (get_channel_distribution 32).2.2

/-- Whether `pat` occurs at the very start of `s`. -/
def leadsWith : List Bool → List Bool → Bool
  | [], _ => true
  | _ :: _, [] => false
  | a :: as, b :: bs => (a == b) && leadsWith as bs

/-- Python `s.find(pat)`: index of the first occurrence, `none` when absent. -/
def findSub (pat : List Bool) : List Bool → Option Nat
  | [] => if leadsWith pat [] then some 0 else none
  | b :: rest =>
    if leadsWith pat (b :: rest) then some 0
    else (findSub pat rest).map (fun i => i + 1)

/-- imag.py `extract`: LSB streams, header reconstruction, full re-split, keystream,
xor, and delimiter search. -/
def extract (grid : List Pixel) (seed : List Bool) : Except PyErr (List Nat) :=
  let len_binary := headerRead grid
  if len_binary.length ≠ 32 then Except.error PyErr.headerTruncated
  else
    let payload_len := binToNat len_binary
    let total := 32 + payload_len
    let tb := (get_channel_distribution total).1
    let tr := (get_channel_distribution total).2.1
    let tg := (get_channel_distribution total).2.2
    let reconstructed :=
      (blueLSBs grid).take tb ++ (redLSBs grid).take tr ++ (greenLSBs grid).take tg
    let encrypted_payload := reconstructed.drop 32
    match lfsr seed lfsrTaps encrypted_payload.length with
    | none => Except.error PyErr.indexError
    | some ks =>
      let decrypted := List.zipWith Bool.xor encrypted_payload ks
      match findSub (text_to_binary delimiter) decrypted with
      | none => Except.error PyErr.delimiterNotFound
      | some pos => Except.ok (binary_to_text (decrypted.take pos))

/-- Spec 4.2, one run of the keystream generator as the spec words it: per output bit
emit the current trailing bit, compute feedback as the xor of the bits at the tapped
offsets measured from the trailing end (read before this step's shift), then shift
the register right by one inserting the feedback bit at the front. -/
def lfsrSpec (reg : List Bool) (taps : List Nat) : Nat → List Bool
  | 0 => []
  | n + 1 =>
    reg.getD (reg.length - 1) false ::
      lfsrSpec
        ((taps.foldl (fun a t => Bool.xor a (reg.getD (reg.length - t) false)) false) ::
          reg.dropLast)
        taps n

/-- Spec 4.1: the 8-bit most-significant-bit-first representation of a code point. -/
def byteBitsBE (c : Nat) : List Bool :=
  [c.testBit 7, c.testBit 6, c.testBit 5, c.testBit 4,
   c.testBit 3, c.testBit 2, c.testBit 1, c.testBit 0]

/-- Concatenation of `byteBitsBE` over a text (spec 4.1's encoder). -/
def byteConcatBE : List Nat → List Bool
  | [] => []
  | c :: rest => byteBitsBE c ++ byteConcatBE rest

/-- The seed `"101101"` of imag.py's main block and of the spec's concrete scenario. -/
def demoSeed : List Bool := [true, false, true, true, false, true]

/-- The message `"HI"` of the spec's concrete scenario. -/
def demoText : List Nat := [72, 73]

/-- An 8x8 all-zero RGB carrier, row-major (the spec's concrete scenario). -/
def demoGrid : List Pixel := List.replicate 64 (Pixel.mk 0 0 0)

/-- The framed payload `embed` builds for `"HI"` with seed `"101101"`. -/
def demoData104 : List Bool :=
  match embedData demoText demoSeed with
  | Except.ok d => d
  | Except.error _ => []

/-- The framed payload `embed` builds for the empty secret with seed `"101101"`. -/
def demoData88 : List Bool :=
  match embedData [] demoSeed with
  | Except.ok d => d
  | Except.error _ => []

/-- The stego image produced by embedding `"HI"` into the 8x8 zero carrier. -/
def demoStego : List Pixel :=
  match embed demoGrid demoText demoSeed with
  | Except.ok g => g
  | Except.error _ => []

/-! ## Helper lemmas -/

theorem decode_encodePairs : ∀ (l : List Bool), l.length % 2 = 0 →
    dna_decode (encodePairs l) = l
  | [], _ => rfl
  | [_], h => by simp at h
  | b1 :: b2 :: rest, h => by
    have ih := decode_encodePairs rest (by simp [List.length_cons] at h; omega)
    cases b1 <;> cases b2 <;>
      simp [encodePairs, dna_decode, dnaMap, baseBits, ih]

set_option maxRecDepth 4000 in
theorem format8_byte : ∀ c : Nat, c < 256 → pyFormatB 8 c = byteBitsBE c := by decide

theorem btt_small : ∀ (l : List Bool), 0 < l.length → l.length < 8 →
    binary_to_text l = [binToNat l]
  | [], h0, _ => by simp at h0
  | [b1], _, _ => rfl
  | [b1, b2], _, _ => rfl
  | [b1, b2, b3], _, _ => rfl
  | [b1, b2, b3, b4], _, _ => rfl
  | [b1, b2, b3, b4, b5], _, _ => rfl
  | [b1, b2, b3, b4, b5, b6], _, _ => rfl
  | [b1, b2, b3, b4, b5, b6, b7], _, _ => rfl
  | b1 :: b2 :: b3 :: b4 :: b5 :: b6 :: b7 :: b8 :: rest, _, h7 => by
    simp [List.length_cons] at h7
    omega

theorem btt_len : ∀ (bits : List Bool),
    (binary_to_text bits).length = (bits.length + 7) / 8
  | [] => rfl
  | [_] => by simp [binary_to_text]
  | [_, _] => by simp [binary_to_text]
  | [_, _, _] => by simp [binary_to_text]
  | [_, _, _, _] => by simp [binary_to_text]
  | [_, _, _, _, _] => by simp [binary_to_text]
  | [_, _, _, _, _, _] => by simp [binary_to_text]
  | [_, _, _, _, _, _, _] => by simp [binary_to_text]
  | b1 :: b2 :: b3 :: b4 :: b5 :: b6 :: b7 :: b8 :: rest => by
    have ih := btt_len rest
    simp only [binary_to_text, List.length_cons, ih]
    omega

theorem btt_append : ∀ (pre suf : List Bool), pre.length % 8 = 0 → 0 < suf.length →
    suf.length < 8 → binary_to_text (pre ++ suf) = binary_to_text pre ++ [binToNat suf]
  | [], suf, _, h0, h7 => by
    rw [List.nil_append, btt_small suf h0 h7]
    rfl
  | [_], _, h8, _, _ => by simp at h8
  | [_, _], _, h8, _, _ => by simp at h8
  | [_, _, _], _, h8, _, _ => by simp at h8
  | [_, _, _, _], _, h8, _, _ => by simp at h8
  | [_, _, _, _, _], _, h8, _, _ => by simp at h8
  | [_, _, _, _, _, _], _, h8, _, _ => by simp at h8
  | [_, _, _, _, _, _, _], _, h8, _, _ => by simp at h8
  | b1 :: b2 :: b3 :: b4 :: b5 :: b6 :: b7 :: b8 :: rest, suf, h8, h0, h7 => by
    have ih := btt_append rest suf (by simp [List.length_cons] at h8; omega) h0 h7
    simp only [List.cons_append, binary_to_text, List.append_eq, ih]

theorem embedData_short (t : List Nat) (s : List Bool) (hs : s.length < 2) :
    embedData t s = Except.error PyErr.shortSeed := by
  have hm : maxTap = 2 := rfl
  simp only [embedData, hm]
  rw [if_pos hs]

theorem pyGet_neg_one (l : List Bool) (h : 0 < l.length) :
    pyGet l (-1) = some (l.getD (l.length - 1) false) := by
  have hj : (if (-1 : Int) < 0 then (-1 : Int) + l.length else -1) = -1 + l.length :=
    if_pos (by norm_num)
  simp only [pyGet, hj]
  rw [if_pos ⟨by omega, by omega⟩]
  have ht : ((-1 : Int) + l.length).toNat = l.length - 1 := by omega
  rw [ht]

theorem pyGet_idx (l : List Bool) (t : Nat) (h1 : 1 ≤ t) (h2 : t ≤ l.length) :
    pyGet l ((l.length : Int) - t) = some (l.getD (l.length - t) false) := by
  have hj : (if ((l.length : Int) - t) < 0 then ((l.length : Int) - t) + l.length
      else (l.length : Int) - t) = (l.length : Int) - t := if_neg (by omega)
  simp only [pyGet, hj]
  rw [if_pos ⟨by omega, by omega⟩]
  have ht : ((l.length : Int) - t).toNat = l.length - t := by omega
  rw [ht]

theorem pyFoldXor_map (reg : List Bool) : ∀ (taps : List Nat) (acc : Bool),
    (∀ t ∈ taps, 1 ≤ t ∧ t ≤ reg.length) →
    pyFoldXor reg acc (taps.map (fun t => (reg.length : Int) - t)) =
      some (taps.foldl (fun a t => Bool.xor a (reg.getD (reg.length - t) false)) acc)
  | [], _, _ => rfl
  | t :: ts, acc, h => by
    have ht := h t (List.mem_cons_self t ts)
    simp only [List.map_cons, pyFoldXor, List.foldl_cons, pyGet_idx reg t ht.1 ht.2]
    exact pyFoldXor_map reg ts (Bool.xor acc (reg.getD (reg.length - t) false))
      (fun x hx => h x (List.mem_cons_of_mem t hx))

theorem lfsrSpec_length : ∀ (n : Nat) (reg : List Bool) (taps : List Nat),
    (lfsrSpec reg taps n).length = n
  | 0, _, _ => rfl
  | n + 1, reg, taps => by
    simp only [lfsrSpec, List.length_cons, lfsrSpec_length n]

theorem lfsrAux_spec : ∀ (n : Nat) (taps : List Nat) (reg : List Bool), 0 < reg.length →
    (∀ t ∈ taps, 1 ≤ t ∧ t ≤ reg.length) →
    lfsrAux (taps.map (fun t => (reg.length : Int) - t)) reg n = some (lfsrSpec reg taps n)
  | 0, _, _, _, _ => rfl
  | n + 1, taps, reg, h0, ht => by
    have hlen : ((taps.foldl (fun a t => Bool.xor a (reg.getD (reg.length - t) false)) false) ::
        reg.dropLast).length = reg.length := by
      simp only [List.length_cons, List.length_dropLast]
      omega
    have ih := lfsrAux_spec n taps
      ((taps.foldl (fun a t => Bool.xor a (reg.getD (reg.length - t) false)) false) ::
        reg.dropLast)
      (by rw [hlen]; exact h0) (by rw [hlen]; exact ht)
    simp only [hlen] at ih
    simp only [lfsrAux, pyGet_neg_one reg h0, pyFoldXor_map reg taps false ht, ih, lfsrSpec]

theorem embedBits_length : ∀ (ps : List Pixel) (rd gd bd : List Bool),
    (embedBits ps rd gd bd).length = ps.length
  | [], _, _, _ => rfl
  | p :: ps, rd, gd, bd => by
    simp only [embedBits, List.length_cons, embedBits_length ps]

theorem embedBits_getD : ∀ (ps : List Pixel) (rd gd bd : List Bool) (i : Nat),
    i < ps.length →
    (embedBits ps rd gd bd).getD i (Pixel.mk 0 0 0) =
      Pixel.mk
        (if i < rd.length then setLSB ((ps.getD i (Pixel.mk 0 0 0)).r) (rd.getD i false)
         else (ps.getD i (Pixel.mk 0 0 0)).r)
        (if i < gd.length then setLSB ((ps.getD i (Pixel.mk 0 0 0)).g) (gd.getD i false)
         else (ps.getD i (Pixel.mk 0 0 0)).g)
        (if i < bd.length then setLSB ((ps.getD i (Pixel.mk 0 0 0)).b) (bd.getD i false)
         else (ps.getD i (Pixel.mk 0 0 0)).b) := by
  intro ps
  induction ps with
  | nil =>
    intro rd gd bd i hi
    simp at hi
  | cons p ps ih =>
    intro rd gd bd i hi
    cases i with
    | zero =>
      cases rd <;> cases gd <;> cases bd <;>
        simp [embedBits, nextBit, List.getD_cons_zero]
    | succ i =>
      have hi' : i < ps.length := by
        simp [List.length_cons] at hi
        omega
      have step : embedBits (p :: ps) rd gd bd =
          Pixel.mk (nextBit p.r rd).1 (nextBit p.g gd).1 (nextBit p.b bd).1 ::
            embedBits ps (nextBit p.r rd).2 (nextBit p.g gd).2 (nextBit p.b bd).2 := rfl
      rw [step, List.getD_cons_succ, ih _ _ _ i hi']
      cases rd <;> cases gd <;> cases bd <;>
        simp [nextBit, List.getD_cons_succ, Nat.succ_lt_succ_iff]

/-! ## Claim theorems -/

/-- Claim C3: for every `n ≥ 0`, `get_channel_distribution n` returns
`(blue, red, green)` with `blue = floor(n * 0.50) = n / 2`,
`red = floor(n * 0.25) = n / 4` and `green = n - blue - red`; the three components
sum to exactly `n`; `blue ≥ red` always, and `blue ≥ green` whenever `n ≥ 4`.
The function is a plain pure function of `n` alone. -/
theorem get_channel_distribution_props (n : Nat) :
    (get_channel_distribution n).1 = n / 2 ∧
    (get_channel_distribution n).2.1 = n / 4 ∧
    (get_channel_distribution n).1 + (get_channel_distribution n).2.1 +
      (get_channel_distribution n).2.2 = n ∧
    (get_channel_distribution n).2.1 ≤ (get_channel_distribution n).1 ∧
    (4 ≤ n → (get_channel_distribution n).2.2 ≤ (get_channel_distribution n).1) := by
  have h1 : (get_channel_distribution n).1 = n / 2 := rfl
  have h2 : (get_channel_distribution n).2.1 = n / 4 := rfl
  have h3 : (get_channel_distribution n).2.2 = n - n / 2 - n / 4 := rfl
  rw [h1, h2, h3]
  refine ⟨rfl, rfl, ?_, ?_, ?_⟩ <;> omega

/-- Witness for `get_channel_distribution_props` at `n = 7`:
`split 7 = (3, 1, 3)`, which sums to 7, with `blue ≥ red` and `blue ≥ green`. -/
theorem get_channel_distribution_props_witness :
    (get_channel_distribution 7).1 = 7 / 2 ∧
    (get_channel_distribution 7).2.1 = 7 / 4 ∧
    (get_channel_distribution 7).1 + (get_channel_distribution 7).2.1 +
      (get_channel_distribution 7).2.2 = 7 ∧
    (get_channel_distribution 7).2.1 ≤ (get_channel_distribution 7).1 ∧
    (get_channel_distribution 7).2.2 ≤ (get_channel_distribution 7).1 := by
  have h := get_channel_distribution_props 7
  exact ⟨h.1, h.2.1, h.2.2.1, h.2.2.2.1, h.2.2.2.2 (by decide)⟩

/-- Claim C4: for every seed, tap offsets measured from the trailing end of the
register (each offset `t` with `1 ≤ t ≤ len(seed)`, so that it denotes a register
position), and requested length `n`, `lfsr` initializes the register to the seed and
behaves exactly as the one-step machine `lfsrSpec` worded by the spec: emit the
trailing bit, xor the tapped bits read before the shift, shift right inserting the
feedback bit at the front; after `n` steps it has produced exactly `n` bits.  Both
sides are pure functions of `(seed, taps, n)` alone, so determinism is immediate. -/
theorem lfsr_matches_spec (seed : List Bool) (taps : List Nat) (n : Nat)
    (h0 : 0 < seed.length) (ht : ∀ t ∈ taps, 1 ≤ t ∧ t ≤ seed.length) :
    lfsr seed taps n = some (lfsrSpec seed taps n) ∧ (lfsrSpec seed taps n).length = n :=
  ⟨lfsrAux_spec n taps seed h0 ht, lfsrSpec_length n seed taps⟩

/-- Witness for `lfsr_matches_spec`: the program's seed `"101101"`, its taps
`[1, 2]`, five steps. -/
theorem lfsr_matches_spec_witness :
    lfsr demoSeed [1, 2] 5 = some (lfsrSpec demoSeed [1, 2] 5) ∧
      (lfsrSpec demoSeed [1, 2] 5).length = 5 :=
  lfsr_matches_spec demoSeed [1, 2] 5 (by decide) (by decide)

/-- Claim C5, counterexample: the claim says the keystream generator itself fails
with a short-seed error when `len(seed) < max(taps) = 2`.  It does not: with the
one-bit seed `"1"` Python's negative indexing wraps the out-of-range tap index and
`lfsr` happily returns `"100"`; likewise `extract` (which never checks the seed
length) reaches the delimiter search rather than any seed error. -/
theorem lfsr_short_seed_no_failure :
    lfsr [true] [1, 2] 3 = some [true, false, false] ∧
    extract demoGrid [true] = Except.error PyErr.delimiterNotFound := by
  constructor <;> rfl

/-- Claim C5 (amended): `embed` checks `len(seed) < max(taps)` before keystream
generation and fails with the short-seed error for every such call; `extract`
performs no such check, and on no input does it ever produce a short-seed error;
the generator itself does not fail for any nonempty seed shorter than the largest
tap offset `max(lfsr_taps) = 2` (the wrapped negative index reads an existing
register cell), succeeding for every requested length. -/
theorem shortSeed_behavior :
    (∀ (grid : List Pixel) (t : List Nat) (s : List Bool), s.length < 2 →
      embed grid t s = Except.error PyErr.shortSeed) ∧
    (∀ (s : List Bool), 0 < s.length → s.length < 2 → ∀ n : Nat,
      (lfsr s lfsrTaps n).isSome = true) ∧
    (∀ (grid : List Pixel) (s : List Bool),
      extract grid s ≠ Except.error PyErr.shortSeed) := by
  refine ⟨?_, ?_, ?_⟩
  · intro grid t s hs
    simp only [embed, embedData_short t s hs]
  · intro s h0 h1 n
    obtain ⟨x, rfl⟩ : ∃ x, s = [x] := by
      cases s with
      | nil => simp at h0
      | cons a t =>
        cases t with
        | nil => exact ⟨a, rfl⟩
        | cons b u =>
          simp [List.length_cons] at h1
          omega
    have h : ∀ (m : Nat) (x : Bool), (lfsrAux [0, -1] [x] m).isSome = true := by
      intro m
      induction m with
      | zero => intro x; rfl
      | succ m ihm =>
        intro x
        have hp1 : pyGet [x] (-1) = some x := rfl
        have hp2 : pyFoldXor [x] false [0, -1] = some false := by cases x <;> rfl
        simp only [lfsrAux, hp1, hp2, List.dropLast_single]
        cases hrec : lfsrAux [0, -1] [false] m with
        | none =>
          have hx := ihm false
          rw [hrec] at hx
          simp at hx
        | some rest => rfl
    have heq : lfsr [x] lfsrTaps n = lfsrAux [0, -1] [x] n := rfl
    rw [heq]
    exact h n x
  · intro grid s h
    simp only [extract] at h
    split at h
    · simp at h
    · split at h
      · simp at h
      · split at h
        · simp at h
        · simp at h

/-- Witness for `shortSeed_behavior`: a one-bit seed makes `embed` fail with the
short-seed error, while `lfsr` itself still succeeds, and `extract` on the 8x8
zero carrier with that seed does not raise the short-seed error. -/
theorem shortSeed_behavior_witness :
    embed demoGrid demoText [true] = Except.error PyErr.shortSeed ∧
    (lfsr [true] lfsrTaps 7).isSome = true ∧
    extract demoGrid [true] ≠ Except.error PyErr.shortSeed :=
  ⟨shortSeed_behavior.1 demoGrid demoText [true] (by decide),
   shortSeed_behavior.2.1 [true] (by decide) (by decide) 7,
   shortSeed_behavior.2.2 demoGrid [true]⟩

/-- Claim C6, counterexample: the claim says `text_to_binary` fails with an encoding
error on a character whose code point exceeds 255.  It does not fail: Python's
`format(ord(char), '08b')` simply emits the minimal (here 9-bit) representation, so
the character 256 yields nine bits instead of eight and no error is raised. -/
theorem text_to_binary_no_failure :
    text_to_binary [256] =
      [true, false, false, false, false, false, false, false, false] ∧
    (text_to_binary [256]).length = 9 := by
  constructor <;> rfl

/-- Claim C6 (amended): `text_to_binary` is total; every character whose code point
is at most 255 is mapped to its 8-bit most-significant-bit-first representation,
concatenated in input order (so the output has exactly `8 * len(text)` bits), while
a code point above 255 silently contributes more than 8 bits instead of failing. -/
theorem text_to_binary_singleByte : ∀ (text : List Nat), (∀ c ∈ text, c ≤ 255) →
    text_to_binary text = byteConcatBE text ∧
      (text_to_binary text).length = 8 * text.length
  | [], _ => ⟨rfl, rfl⟩
  | c :: rest, h => by
    have hc : c < 256 := by
      have := h c (List.mem_cons_self c rest)
      omega
    have ih := text_to_binary_singleByte rest (fun x hx => h x (List.mem_cons_of_mem c hx))
    have hfc := format8_byte c hc
    refine ⟨?_, ?_⟩
    · simp only [text_to_binary, byteConcatBE, hfc, ih.1]
    · simp only [text_to_binary, List.length_append, ih.2, hfc, byteBitsBE,
        List.length_cons]
      simp [List.length_cons]
      omega

/-- Witness for `text_to_binary_singleByte` on the text `"HI"`. -/
theorem text_to_binary_singleByte_witness :
    text_to_binary [72, 73] = byteConcatBE [72, 73] ∧
      (text_to_binary [72, 73]).length = 8 * [72, 73].length :=
  text_to_binary_singleByte [72, 73] (by decide)

/-- Claim C7: for every bit string `b`, the dna encode-then-decode pass of `embed`
is the identity when `len(b)` is even and appends exactly one trailing `0` bit when
`len(b)` is odd; and the payload length recorded in the 32-bit frame header of the
framed payload is precisely the length of this (possibly padded) pass output. -/
theorem dna_net_effect :
    (∀ b : List Bool,
      dna_decode (dna_encode b) = if b.length % 2 = 0 then b else b ++ [false]) ∧
    (∀ (t : List Nat) (s : List Bool) (d : List Bool), embedData t s = Except.ok d →
      ∃ enc : List Bool,
        d = pyFormatB 32 (dna_decode (dna_encode enc)).length ++
          dna_decode (dna_encode enc)) := by
  constructor
  · intro b
    by_cases h : b.length % 2 = 0
    · rw [if_pos h]
      unfold dna_encode
      rw [if_neg (by omega)]
      exact decode_encodePairs b h
    · rw [if_neg h]
      unfold dna_encode
      rw [if_pos (by omega)]
      refine decode_encodePairs (b ++ [false]) ?_
      simp [List.length_append]
      omega
  · intro t s d h
    simp only [embedData] at h
    split at h
    · exact Except.noConfusion h
    · revert h
      cases hk : lfsr s lfsrTaps (text_to_binary (t ++ delimiter)).length with
      | none => intro h; exact Except.noConfusion h
      | some ks =>
        intro h
        exact ⟨List.zipWith Bool.xor (text_to_binary (t ++ delimiter)) ks,
          (Except.ok.inj h).symm⟩

/-- Witness for `dna_net_effect`: the odd-length input `[1]` gains a trailing `0`,
and the framed payload built for the empty secret carries its dna-pass output
behind the 32-bit header. -/
theorem dna_net_effect_witness :
    (dna_decode (dna_encode [true]) =
      if [true].length % 2 = 0 then [true] else [true] ++ [false]) ∧
    ∃ enc : List Bool,
      demoData88 = pyFormatB 32 (dna_decode (dna_encode enc)).length ++
        dna_decode (dna_encode enc) :=
  ⟨dna_net_effect.1 [true], dna_net_effect.2 [] demoSeed demoData88 rfl⟩

/-- Claim C8: whenever the framed payload is built successfully but any of the
blue / red / green bit counts of its channel split exceeds the image's pixel count,
`embed` fails with the capacity error; in this pure model the carrier grid is
returned to the caller untouched, matching the code, which checks capacity before
copying or mutating any pixel data. -/
theorem embed_capacity_atomic (grid : List Pixel) (t : List Nat) (s : List Bool)
    (d : List Bool) (h1 : embedData t s = Except.ok d)
    (h2 : (get_channel_distribution d.length).1 > grid.length ∨
      (get_channel_distribution d.length).2.1 > grid.length ∨
      (get_channel_distribution d.length).2.2 > grid.length) :
    embed grid t s = Except.error PyErr.capacity := by
  simp only [embed, h1]
  rw [if_pos h2]

/-- Witness for `embed_capacity_atomic`: embedding the empty secret into an image
with zero pixels fails with the capacity error. -/
theorem embed_capacity_atomic_witness :
    embed [] [] demoSeed = Except.error PyErr.capacity :=
  embed_capacity_atomic [] [] demoSeed demoData88 rfl (by decide)

/-- Claim C9: the pixel loop preserves the grid length; every output pixel's channel
byte is the input byte with its LSB overwritten by the next bit of that channel's
stream while the stream lasts (so it differs from the input byte in at most the
LSB), and once a channel's stream is exhausted the remaining bytes of that channel
are unchanged; the three channels advance independently, one bit per pixel, in
row-major order.  Finally, every successful `embed` is exactly this loop applied to
the three channel slices of the framed payload. -/
theorem embed_frame_property :
    (∀ (ps : List Pixel) (rd gd bd : List Bool),
      (embedBits ps rd gd bd).length = ps.length) ∧
    (∀ (ps : List Pixel) (rd gd bd : List Bool) (i : Nat), i < ps.length →
      (embedBits ps rd gd bd).getD i (Pixel.mk 0 0 0) =
        Pixel.mk
          (if i < rd.length then setLSB ((ps.getD i (Pixel.mk 0 0 0)).r) (rd.getD i false)
           else (ps.getD i (Pixel.mk 0 0 0)).r)
          (if i < gd.length then setLSB ((ps.getD i (Pixel.mk 0 0 0)).g) (gd.getD i false)
           else (ps.getD i (Pixel.mk 0 0 0)).g)
          (if i < bd.length then setLSB ((ps.getD i (Pixel.mk 0 0 0)).b) (bd.getD i false)
           else (ps.getD i (Pixel.mk 0 0 0)).b)) ∧
    (∀ (grid : List Pixel) (t : List Nat) (s : List Bool) (out : List Pixel),
      embed grid t s = Except.ok out →
      ∃ d : List Bool, embedData t s = Except.ok d ∧
        out = embedBits grid
          ((d.drop (get_channel_distribution d.length).1).take
            (get_channel_distribution d.length).2.1)
          (d.drop ((get_channel_distribution d.length).1 +
            (get_channel_distribution d.length).2.1))
          (d.take (get_channel_distribution d.length).1)) := by
  refine ⟨embedBits_length, embedBits_getD, ?_⟩
  intro grid t s out h
  revert h
  simp only [embed]
  cases hd : embedData t s with
  | error e => intro h; exact Except.noConfusion h
  | ok d =>
    intro h
    have h2 : (if (get_channel_distribution d.length).1 > grid.length ∨
        (get_channel_distribution d.length).2.1 > grid.length ∨
        (get_channel_distribution d.length).2.2 > grid.length then
          (Except.error PyErr.capacity : Except PyErr (List Pixel))
        else Except.ok (embedBits grid
          ((d.drop (get_channel_distribution d.length).1).take
            (get_channel_distribution d.length).2.1)
          (d.drop ((get_channel_distribution d.length).1 +
            (get_channel_distribution d.length).2.1))
          (d.take (get_channel_distribution d.length).1))) = Except.ok out := h
    split at h2
    · exact Except.noConfusion h2
    · exact ⟨d, rfl, (Except.ok.inj h2).symm⟩

/-- Witness for `embed_frame_property`: the loop on a one-pixel grid with a one-bit
red stream, and the concrete successful embedding of `"HI"` into the 8x8 carrier. -/
theorem embed_frame_property_witness :
    (embedBits [Pixel.mk 3 4 5] [true] [] [false]).length = [Pixel.mk 3 4 5].length ∧
    ((embedBits [Pixel.mk 3 4 5] [true] [] [false]).getD 0 (Pixel.mk 0 0 0) =
      Pixel.mk
        (if 0 < [true].length then
          setLSB (([Pixel.mk 3 4 5].getD 0 (Pixel.mk 0 0 0)).r) ([true].getD 0 false)
         else ([Pixel.mk 3 4 5].getD 0 (Pixel.mk 0 0 0)).r)
        (if 0 < ([] : List Bool).length then
          setLSB (([Pixel.mk 3 4 5].getD 0 (Pixel.mk 0 0 0)).g) (([] : List Bool).getD 0 false)
         else ([Pixel.mk 3 4 5].getD 0 (Pixel.mk 0 0 0)).g)
        (if 0 < [false].length then
          setLSB (([Pixel.mk 3 4 5].getD 0 (Pixel.mk 0 0 0)).b) ([false].getD 0 false)
         else ([Pixel.mk 3 4 5].getD 0 (Pixel.mk 0 0 0)).b)) ∧
    (∃ d : List Bool, embedData demoText demoSeed = Except.ok d ∧
      demoStego = embedBits demoGrid
        ((d.drop (get_channel_distribution d.length).1).take
          (get_channel_distribution d.length).2.1)
        (d.drop ((get_channel_distribution d.length).1 +
          (get_channel_distribution d.length).2.1))
        (d.take (get_channel_distribution d.length).1)) :=
  ⟨embed_frame_property.1 [Pixel.mk 3 4 5] [true] [] [false],
   embed_frame_property.2.1 [Pixel.mk 3 4 5] [true] [] [false] 0 (by decide),
   embed_frame_property.2.2 demoGrid demoText demoSeed demoStego rfl⟩

/-- Claim C10: `binary_to_text` is total on every bit string: it partitions the
input into consecutive 8-bit groups (producing `ceil(len / 8)` characters), and when
the length is not a multiple of 8 the trailing partial group of `k < 8` bits is
decoded as the character whose code point is the big-endian value of those `k`
bits, rather than being dropped or raising. -/
theorem binary_to_text_props :
    (∀ bits : List Bool, (binary_to_text bits).length = (bits.length + 7) / 8) ∧
    (∀ pre suf : List Bool, pre.length % 8 = 0 → 0 < suf.length → suf.length < 8 →
      binary_to_text (pre ++ suf) = binary_to_text pre ++ [binToNat suf]) :=
  ⟨btt_len, btt_append⟩

/-- Witness for `binary_to_text_props`: a 3-bit input decodes to one character, and
an 8-bit group followed by a 2-bit tail decodes to the group's character followed by
the tail's character. -/
theorem binary_to_text_props_witness :
    (binary_to_text [true, true, false]).length = ([true, true, false].length + 7) / 8 ∧
    binary_to_text ([true, true, true, true, true, true, true, true] ++ [false, true]) =
      binary_to_text [true, true, true, true, true, true, true, true] ++
        [binToNat [false, true]] :=
  ⟨binary_to_text_props.1 [true, true, false],
   binary_to_text_props.2 [true, true, true, true, true, true, true, true] [false, true]
     (by decide) (by decide) (by decide)⟩

/-- Claim C2, code bug: embedding `"HI"` with seed `"101101"` into the 8x8 zero
carrier succeeds with a framed payload of 104 bits (32-bit header plus a 72-bit
payload), yet reading the first 16 / 8 / 8 LSBs of the blue / red / green streams
(the channel split of 32) and parsing them big-endian yields 48741, not 72: `embed`
places the whole 32-bit header at the start of the blue slice of the concatenated
frame (split of 104), so the bits the extractor takes from the red and green
streams are encrypted payload bits, not header bits 16..31. -/
theorem header_mismatch :
    embed demoGrid demoText demoSeed = Except.ok demoStego ∧
    embedData demoText demoSeed = Except.ok demoData104 ∧
    demoData104.length = 104 ∧
    binToNat (headerRead demoStego) = 48741 ∧
    binToNat (headerRead demoStego) ≠ demoData104.length - 32 := by
  refine ⟨rfl, rfl, rfl, rfl, ?_⟩
  intro hc
  have h1 : binToNat (headerRead demoStego) = 48741 := rfl
  have h2 : demoData104.length - 32 = 72 := rfl
  rw [h1, h2] at hc
  exact absurd hc (by decide)

set_option maxRecDepth 40000 in
/-- Claim C1, code bug: with the spec's own concrete scenario (seed `"101101"`,
message `"HI"`, 8x8 all-zero carrier, pixel count 64 ≥ the required 52), embedding
succeeds but extracting with the same seed does not return `"HI"`: the mis-read
header (see `header_mismatch`) desynchronizes the payload reconstruction and the
delimiter is never found, so `extract` reports the delimiter-not-found failure. -/
theorem round_trip_fails :
    embed demoGrid demoText demoSeed = Except.ok demoStego ∧
    extract demoStego demoSeed = Except.error PyErr.delimiterNotFound ∧
    extract demoStego demoSeed ≠ Except.ok demoText := by
  refine ⟨rfl, rfl, ?_⟩
  intro h
  have he : extract demoStego demoSeed = Except.error PyErr.delimiterNotFound := rfl
  rw [he] at h
  exact Except.noConfusion h
